import Mathlib

/-!
Shallow embedding of the approval-workflow engine of the expense-tracker
backend (`nodejs-backend/utils/approvalWorkflow.js` together with the
approve/reject routes of `nodejs-backend/routes/expenses.js`).

The database rows touched by the engine are modelled as plain records, the
Prisma queries as pure functions over lists of those records, and the three
exported functions `createApprovalSequence`, `processApproval` and
`evaluateApprovalRules` as pure Lean functions.  JavaScript numbers that
carry percentage thresholds are modelled as rationals; `Math.ceil` is the
rational ceiling.
-/

/-- Status of an approval step, and also of an expense once the engine has
decided it (the code stores both as the same strings). -/
inductive Status where
  | PENDING
  | APPROVED
  | REJECTED
deriving DecidableEq, Repr

/-- One `expenseApproval` row as the engine sees it: the resolved approver,
the optional role label, the `order` column, the step status and the
optional comment.  `approverName` stands for `approval.approver?.fullName`
obtained through the `include: { approver: true }` join. -/
structure ExpenseApproval where
  approverId : Nat
  approverName : Option String
  approverRole : Option String
  order : Nat
  status : Status
  comment : Option String
deriving DecidableEq, Repr

/-- Rule kinds stored in `approvalRule.ruleType`. -/
inductive RuleType where
  | PERCENTAGE
  | SPECIFIC
  | HYBRID
deriving DecidableEq, Repr

/-- The JSON `config` blob read by the HYBRID branch. -/
structure HybridConfig where
  percentageThreshold : Option ℚ
  specificRole : Option String
deriving DecidableEq, Repr

/-- One `approvalRule` row. -/
structure ApprovalRule where
  ruleType : RuleType
  threshold : ℚ
  specificApproverId : Option Nat
  specificRole : Option String
  config : Option HybridConfig
deriving DecidableEq, Repr

/-- The reason strings produced by `evaluateApprovalRules`, kept as a closed
enumeration carrying the data the strings interpolate. -/
inductive Reason where
  | rejectedByApprover
  | percentageRuleSatisfied (threshold : ℚ)
  | specificApproverApproved
  | specificRoleApproved (role : String)
  | hybridRuleSatisfied
  | allApprovalsCompleted
  | awaitingMoreApprovals
deriving DecidableEq, Repr

/-- The object returned by `evaluateApprovalRules`. -/
structure EvalResult where
  finalDecision : Option Status
  reason : Reason
  rejectedBy : Option String
  comment : Option String
  approvedBy : Option String
  pendingApprovals : Option Nat
  totalApprovals : Option Nat
deriving DecidableEq, Repr

/-- `approvals.map(a => a.approver?.fullName).join(', ')` (missing names
join as empty strings, as `undefined` stringifies oddly in JS; the claims
never inspect this field, only its presence). -/
def joinNames (approvals : List ExpenseApproval) : String :=
  String.intercalate ", " (approvals.map (fun a => a.approverName.getD ""))

/-- `config.percentageThreshold || 0.5`: JavaScript `||` falls through to
the default on `undefined` and on the falsy number `0`. -/
def jsNumOr (v : Option ℚ) (d : ℚ) : ℚ :=
  match v with
  | none => d
  | some t => if t = 0 then d else t

/-- `Math.ceil(totalApprovals * rule.threshold)` on the exact rational
threshold, computed by integer arithmetic on the threshold's numerator and
denominator (so that the kernel can evaluate it); `requiredCount_eq_ceil`
identifies it with the rational ceiling `⌈total * t⌉`. -/
def requiredCount (total : ℕ) (t : ℚ) : ℤ :=
  -((-((total : ℤ) * t.num)) / (t.den : ℤ))

theorem requiredCount_eq_ceil (total : ℕ) (t : ℚ) :
    requiredCount total t = ⌈(total : ℚ) * t⌉ := by
  have h : (total : ℚ) * t = ((((total : ℤ) * t.num : ℤ) : ℚ) / ((t.den : ℕ) : ℚ)) := by
    conv_lhs => rw [← Rat.num_div_den t]
    push_cast
    ring
  have h2 : ((((total : ℤ) * t.num : ℤ) : ℚ) / ((t.den : ℕ) : ℚ))
      = -(((-((total : ℤ) * t.num) : ℤ) : ℚ) / ((t.den : ℕ) : ℚ)) := by
    push_cast
    ring
  rw [requiredCount, h, h2, Int.ceil_neg, Rat.floor_intCast_div_natCast]

/-- The body of the `for (const rule of rules)` loop of
`evaluateApprovalRules`, lines 202-257: the first rule whose condition
holds returns its result, the rest of the list is not looked at.
`approvedApprovals` and `totalApprovals` are the counts computed before the
loop. -/
def evalRulesLoop (approvals approvedApprovals : List ExpenseApproval)
    (totalApprovals : Nat) : List ApprovalRule → Option EvalResult
  | [] => none
  | rule :: rest =>
    match rule.ruleType with
    | RuleType.PERCENTAGE =>
      let requiredApprovals : ℤ := requiredCount totalApprovals rule.threshold
      if (approvedApprovals.length : ℤ) ≥ requiredApprovals then
        some { finalDecision := some Status.APPROVED
               reason := Reason.percentageRuleSatisfied rule.threshold
               rejectedBy := none, comment := none
               approvedBy := some (joinNames approvedApprovals)
               pendingApprovals := none, totalApprovals := none }
      else evalRulesLoop approvals approvedApprovals totalApprovals rest
    | RuleType.SPECIFIC =>
      match rule.specificApproverId with
      | some sid =>
        match approvals.find? (fun a => a.approverId == sid) with
        | some specificApproval =>
          if specificApproval.status = Status.APPROVED then
            some { finalDecision := some Status.APPROVED
                   reason := Reason.specificApproverApproved
                   rejectedBy := none, comment := none
                   approvedBy := some (specificApproval.approverName.getD "")
                   pendingApprovals := none, totalApprovals := none }
          else evalRulesLoop approvals approvedApprovals totalApprovals rest
        | none => evalRulesLoop approvals approvedApprovals totalApprovals rest
      | none =>
        match rule.specificRole with
        | some role =>
          match approvals.find? (fun a => a.approverRole == some role) with
          | some roleApproval =>
            if roleApproval.status = Status.APPROVED then
              some { finalDecision := some Status.APPROVED
                     reason := Reason.specificRoleApproved role
                     rejectedBy := none, comment := none
                     approvedBy := some (roleApproval.approverName.getD "")
                     pendingApprovals := none, totalApprovals := none }
            else evalRulesLoop approvals approvedApprovals totalApprovals rest
          | none => evalRulesLoop approvals approvedApprovals totalApprovals rest
        | none => evalRulesLoop approvals approvedApprovals totalApprovals rest
    | RuleType.HYBRID =>
      let config := rule.config.getD { percentageThreshold := none, specificRole := none }
      let percentageThreshold := jsNumOr config.percentageThreshold (mkRat 1 2)
      let requiredApprovals : ℤ := requiredCount totalApprovals percentageThreshold
      let percentageSatisfied : Bool := (approvedApprovals.length : ℤ) ≥ requiredApprovals
      let specificSatisfied : Bool :=
        match config.specificRole with
        | some role =>
          match approvals.find? (fun a => a.approverRole == some role) with
          | some roleApproval => roleApproval.status == Status.APPROVED
          | none => false
        | none => false
      if percentageSatisfied || specificSatisfied then
        some { finalDecision := some Status.APPROVED
               reason := Reason.hybridRuleSatisfied
               rejectedBy := none, comment := none
               approvedBy := some (joinNames approvedApprovals)
               pendingApprovals := none, totalApprovals := none }
      else evalRulesLoop approvals approvedApprovals totalApprovals rest

/-- `evaluateApprovalRules` (lines 158-279) as a pure function of the
expense's approval rows (already ordered by `order`) and the company's
active rules (in storage order). -/
def evaluateApprovalRules (approvals : List ExpenseApproval)
    (rules : List ApprovalRule) : EvalResult :=
  match approvals.find? (fun a => a.status == Status.REJECTED) with
  | some rejectedApproval =>
    { finalDecision := some Status.REJECTED
      reason := Reason.rejectedByApprover
      rejectedBy := rejectedApproval.approverName
      comment := rejectedApproval.comment
      approvedBy := none, pendingApprovals := none, totalApprovals := none }
  | none =>
    let approvedApprovals := approvals.filter (fun a => a.status == Status.APPROVED)
    let pendingApprovals := approvals.filter (fun a => a.status == Status.PENDING)
    let totalApprovals := approvals.length
    match evalRulesLoop approvals approvedApprovals totalApprovals rules with
    | some result => result
    | none =>
      if pendingApprovals.length = 0 ∧ approvedApprovals.length > 0 then
        { finalDecision := some Status.APPROVED
          reason := Reason.allApprovalsCompleted
          rejectedBy := none, comment := none
          approvedBy := some (joinNames approvedApprovals)
          pendingApprovals := none, totalApprovals := none }
      else
        { finalDecision := none
          reason := Reason.awaitingMoreApprovals
          rejectedBy := none, comment := none, approvedBy := none
          pendingApprovals := some pendingApprovals.length
          totalApprovals := some totalApprovals }

/-- One step descriptor of the company's stored approval-sequence JSON:
`{type: 'user', value}` with a user id, `{type: 'role', value}` with a role
name, or `{type: 'manager'}`. -/
inductive SequenceStep where
  | user (value : Nat)
  | role (value : String)
  | manager
deriving DecidableEq, Repr

/-- The body of one iteration of the `for` loop of `createApprovalSequence`
(lines 28-61): resolve a definition step to `(approverId, approverRole)`.
`findRoleUser` stands for the `prisma.user.findFirst` lookup of an active
user of the company holding the (upper-cased) role; `managerOfSubmitter`
stands for the submitter's `manager` relation. -/
def resolveStep (findRoleUser : String → Option Nat)
    (managerOfSubmitter : Option Nat) :
    SequenceStep → Option Nat × Option String
  | SequenceStep.user v => (some v, none)
  | SequenceStep.role v =>
    match findRoleUser v.toUpper with
    | some uid => (some uid, some v.toUpper)
    | none => (none, none)
  | SequenceStep.manager =>
    match managerOfSubmitter with
    | some m => (some m, some "MANAGER")
    | none => (none, none)

/-- The JavaScript truthiness test `if (approverId)` guarding row creation:
`null` and the number `0` are falsy. -/
def jsTruthyId : Option Nat → Bool
  | none => false
  | some n => n ≠ 0

/-- The `for (let i = 0; i < sequenceSteps.length; i++)` loop of
`createApprovalSequence`, carrying the loop counter `i` that is written
into the `order` column of each created row. -/
def buildSteps (findRoleUser : String → Option Nat)
    (managerOfSubmitter : Option Nat) :
    List SequenceStep → Nat → List ExpenseApproval
  | [], _ => []
  | step :: rest, i =>
    let r := resolveStep findRoleUser managerOfSubmitter step
    (if jsTruthyId r.1 then
      [{ approverId := r.1.getD 0, approverName := none, approverRole := r.2,
         order := i, status := Status.PENDING, comment := none }]
    else []) ++ buildSteps findRoleUser managerOfSubmitter rest (i + 1)

/-- `createApprovalSequence` (lines 12-102) as a pure function of the
company's active sequence definition (`none` when no active sequence row —
or a row with a null `sequence` blob — exists) and the two directory
lookups.  Returns the created `expenseApproval` rows. -/
def createApprovalSequence (sequence : Option (List SequenceStep))
    (findRoleUser : String → Option Nat)
    (managerOfSubmitter : Option Nat) : List ExpenseApproval :=
  match sequence with
  | some sequenceSteps => buildSteps findRoleUser managerOfSubmitter sequenceSteps 0
  | none =>
    match managerOfSubmitter with
    | some m =>
      [{ approverId := m, approverName := none, approverRole := some "MANAGER",
         order := 0, status := Status.PENDING, comment := none }]
    | none => []

/-- The state the workflow engine mutates for one expense: its
`expenseApproval` rows and the expense's `status` column. -/
structure WorkflowState where
  steps : List ExpenseApproval
  expenseStatus : Status
deriving DecidableEq, Repr

/-- `prisma.expenseApproval.updateMany` of `processApproval` (lines
115-126): set `status` and `comment` on every row of the expense whose
`approverId` matches and whose `status` is `'PENDING'`; returns the updated
rows together with the matched-row `count`. -/
def updateManyPending (steps : List ExpenseApproval) (approverId : Nat)
    (decision : Status) (comment : Option String) :
    List ExpenseApproval × Nat :=
  (steps.map (fun a =>
      if a.approverId = approverId ∧ a.status = Status.PENDING then
        { a with status := decision, comment := comment }
      else a),
   (steps.filter (fun a =>
      a.approverId == approverId && a.status == Status.PENDING)).length)

/-- `processApproval` (lines 112-151) over the single expense held in the
state: record the decision on the caller's pending rows, throw
`'No pending approval found for this user'` when no row matched (the
zero-row `updateMany` has written nothing, so the state is unchanged up to
the identity map), otherwise re-evaluate the rules and, when the verdict is
non-null, write it to the expense status. -/
def processApproval (s : WorkflowState) (approverId : Nat) (decision : Status)
    (comment : Option String) (rules : List ApprovalRule) :
    WorkflowState × Except String EvalResult :=
  let u := updateManyPending s.steps approverId decision comment
  if u.2 = 0 then
    ({ steps := u.1, expenseStatus := s.expenseStatus },
     Except.error "No pending approval found for this user")
  else
    let result := evaluateApprovalRules u.1 rules
    match result.finalDecision with
    | some d => ({ steps := u.1, expenseStatus := d }, Except.ok result)
    | none => ({ steps := u.1, expenseStatus := s.expenseStatus }, Except.ok result)

/-! Concrete fixtures used by witnesses and counterexamples. -/

/-- A bare `expenseApproval` row (no approver name, no comment). -/
def mkRow (id ord : Nat) (role : Option String) (st : Status) : ExpenseApproval :=
  { approverId := id, approverName := none, approverRole := role,
    order := ord, status := st, comment := none }

/-- A PERCENTAGE rule with the given threshold. -/
def percRule (t : ℚ) : ApprovalRule :=
  { ruleType := RuleType.PERCENTAGE, threshold := t,
    specificApproverId := none, specificRole := none, config := none }

/-- A SPECIFIC rule naming a role (no specific approver id). -/
def roleRule (r : String) : ApprovalRule :=
  { ruleType := RuleType.SPECIFIC, threshold := 0,
    specificApproverId := none, specificRole := some r, config := none }

/-- A HYBRID rule with the given config blob. -/
def hybridRule (c : Option HybridConfig) : ApprovalRule :=
  { ruleType := RuleType.HYBRID, threshold := 0,
    specificApproverId := none, specificRole := none, config := c }

/-! Shared lemmas about the evaluator. -/

/-- Lines 186-194: a REJECTED row anywhere makes the evaluator return the
REJECTED verdict before any rule is consulted. -/
theorem evaluate_rejected_mem (approvals : List ExpenseApproval)
    (rules : List ApprovalRule) (a : ExpenseApproval) (ha : a ∈ approvals)
    (hrej : a.status = Status.REJECTED) :
    (evaluateApprovalRules approvals rules).finalDecision = some Status.REJECTED := by
  simp only [evaluateApprovalRules]
  split
  · rfl
  · next hfind =>
      exfalso
      have := List.find?_eq_none.mp hfind a ha
      simp [hrej] at this

/-! ## C1 -/

/-- C1: for every step set and every rule configuration, a REJECTED step
anywhere makes `evaluateApprovalRules` return verdict REJECTED, regardless
of the configured rules (the rejection check precedes all rule
evaluation). -/
theorem C1_rejected_step_dominates
    (approvals : List ExpenseApproval) (rules : List ApprovalRule)
    (a : ExpenseApproval) (ha : a ∈ approvals)
    (hrej : a.status = Status.REJECTED) :
    (evaluateApprovalRules approvals rules).finalDecision = some Status.REJECTED :=
  evaluate_rejected_mem approvals rules a ha hrej

/-- C1 witness: two APPROVED steps, one REJECTED step, a 50% percentage
rule whose threshold is met — verdict is still REJECTED. -/
theorem C1_rejected_step_dominates_witness :
    (evaluateApprovalRules
      [mkRow 1 0 none Status.APPROVED, mkRow 2 1 none Status.APPROVED,
       mkRow 3 2 none Status.REJECTED]
      [percRule (mkRat 1 2)]).finalDecision = some Status.REJECTED :=
  C1_rejected_step_dominates
    [mkRow 1 0 none Status.APPROVED, mkRow 2 1 none Status.APPROVED,
     mkRow 3 2 none Status.REJECTED]
    [percRule (mkRat 1 2)] (mkRow 3 2 none Status.REJECTED) (by decide) rfl

/-! ## C9 -/

/-- C9 counterexample: on an empty step set a PERCENTAGE rule *does* fire
(0 approvals ≥ ceil(0 × t) = 0), so the verdict is APPROVED, not null. -/
theorem C9_counterexample :
    (evaluateApprovalRules [] [percRule (mkRat 1 2)]).finalDecision = some Status.APPROVED
    ∧ (evaluateApprovalRules [] [percRule (mkRat 1 2)]).finalDecision ≠ none := by
  constructor
  · decide
  · decide

/-- C9 amended: on an empty step set the evaluator returns a null verdict
when no PERCENTAGE or HYBRID rule is configured (a SPECIFIC rule never
finds a row, and the default path requires at least one approved row), and
`processApproval` on a zero-step expense always throws
`'No pending approval found for this user'` without touching the state —
so no step-action path resolves a zero-step expense.  (With a PERCENTAGE
or HYBRID rule configured, however, the evaluator itself would report
APPROVED on zero steps, as the counterexample shows.) -/
theorem C9_empty_steps_stay_pending
    (rules : List ApprovalRule)
    (hspec : ∀ r ∈ rules, r.ruleType = RuleType.SPECIFIC)
    (es : Status) (approverId : Nat) (decision : Status) (comment : Option String) :
    (evaluateApprovalRules [] rules).finalDecision = none
    ∧ processApproval { steps := [], expenseStatus := es } approverId decision comment rules
      = ({ steps := [], expenseStatus := es },
         Except.error "No pending approval found for this user") := by
  constructor
  · have hloop : ∀ rs : List ApprovalRule, (∀ r ∈ rs, r.ruleType = RuleType.SPECIFIC) →
        evalRulesLoop [] [] 0 rs = none := by
      intro rs
      induction rs with
      | nil => intro _; rfl
      | cons r rest ih =>
          intro h
          have hr := h r (List.mem_cons_self r rest)
          simp only [evalRulesLoop, hr]
          cases r.specificApproverId with
          | some sid => simpa using ih (fun x hx => h x (List.mem_cons_of_mem r hx))
          | none =>
              cases r.specificRole with
              | some role => simpa using ih (fun x hx => h x (List.mem_cons_of_mem r hx))
              | none => simpa using ih (fun x hx => h x (List.mem_cons_of_mem r hx))
    simp only [evaluateApprovalRules, List.find?_nil, List.filter_nil, List.length_nil,
      hloop rules hspec]
    norm_num
  · rfl

/-- C9 witness: one SPECIFIC role rule, empty step set — null verdict, and
a decision attempt errors without changing the state. -/
theorem C9_empty_steps_stay_pending_witness :
    (evaluateApprovalRules [] [roleRule "CFO"]).finalDecision = none
    ∧ processApproval { steps := [], expenseStatus := Status.PENDING } 1 Status.APPROVED none
        [roleRule "CFO"]
      = ({ steps := [], expenseStatus := Status.PENDING },
         Except.error "No pending approval found for this user") :=
  C9_empty_steps_stay_pending [roleRule "CFO"] (by decide) Status.PENDING 1 Status.APPROVED none

/-! ## C3 -/

/-- Every row built from loop counter `i` onwards has `order ≥ i`. -/
theorem buildSteps_order_lb (f : String → Option Nat) (m : Option Nat) :
    ∀ (l : List SequenceStep) (i : Nat) (a : ExpenseApproval),
      a ∈ buildSteps f m l i → i ≤ a.order := by
  intro l
  induction l with
  | nil => intro i a ha; simp [buildSteps] at ha
  | cons step rest ih =>
      intro i a ha
      simp only [buildSteps, List.mem_append] at ha
      rcases ha with ha | ha
      · by_cases h : jsTruthyId (resolveStep f m step).1 = true
        · simp only [h, if_true, List.mem_singleton] at ha
          rw [ha]
        · simp [h] at ha
      · exact Nat.le_of_succ_le (ih (i + 1) a ha)

/-- The `order` values produced by the loop are strictly increasing. -/
theorem buildSteps_order_strict_mono (f : String → Option Nat) (m : Option Nat) :
    ∀ (l : List SequenceStep) (i : Nat),
      List.Pairwise (fun a b => a.order < b.order) (buildSteps f m l i) := by
  intro l
  induction l with
  | nil => intro i; simp [buildSteps]
  | cons step rest ih =>
      intro i
      simp only [buildSteps]
      by_cases h : jsTruthyId (resolveStep f m step).1 = true
      · simp only [h, if_true, List.singleton_append, List.pairwise_cons]
        refine ⟨fun b hb => ?_, ih (i + 1)⟩
        exact Nat.lt_of_succ_le (buildSteps_order_lb f m rest (i + 1) b hb)
      · simpa [h] using ih (i + 1)

/-- The `order` values are exactly the *definition indices* of the resolved
steps: row creation uses the loop counter `i`, so a skipped step still
consumes its slot. -/
theorem buildSteps_orders_eq_enum (f : String → Option Nat) (m : Option Nat) :
    ∀ (l : List SequenceStep) (i : Nat),
      (buildSteps f m l i).map ExpenseApproval.order
        = ((List.enumFrom i l).filter
            (fun p => jsTruthyId (resolveStep f m p.2).1)).map Prod.fst := by
  intro l
  induction l with
  | nil => intro i; rfl
  | cons step rest ih =>
      intro i
      simp only [buildSteps, List.enumFrom, List.filter_cons, List.map_append]
      by_cases h : jsTruthyId (resolveStep f m step).1 = true
      · simpa [h] using ih (i + 1)
      · simpa [h] using ih (i + 1)

/-- C3 counterexample: a two-step definition whose first step is an
unresolvable role and whose second step is a fixed user produces a single
row with `order = 1` — the orders are not `[0]`, i.e. not contiguous from
0: the skipped definition step did consume an order slot. -/
theorem C3_counterexample :
    (createApprovalSequence (some [SequenceStep.role "CFO", SequenceStep.user 5])
        (fun _ => none) none).map ExpenseApproval.order = [1]
    ∧ ¬ ((createApprovalSequence (some [SequenceStep.role "CFO", SequenceStep.user 5])
          (fun _ => none) none).map ExpenseApproval.order
        = List.range (createApprovalSequence (some [SequenceStep.role "CFO", SequenceStep.user 5])
            (fun _ => none) none).length) := by
  constructor
  · rfl
  · decide

/-- C3 amended: the `order` values assigned by `createApprovalSequence` are
the definition indices of the resolved steps — strictly increasing, but
with a gap for every unresolved (skipped) definition step, which does
consume its order slot; only the no-definition fallback is trivially
contiguous from 0. -/
theorem C3_orders_are_definition_indices
    (l : List SequenceStep) (f : String → Option Nat) (m : Option Nat) :
    (createApprovalSequence (some l) f m).map ExpenseApproval.order
      = ((List.enumFrom 0 l).filter
          (fun p => jsTruthyId (resolveStep f m p.2).1)).map Prod.fst
    ∧ List.Pairwise (fun a b => a.order < b.order) (createApprovalSequence (some l) f m)
    ∧ (createApprovalSequence none f m).map ExpenseApproval.order
      = List.range (createApprovalSequence none f m).length := by
  refine ⟨buildSteps_orders_eq_enum f m l 0, buildSteps_order_strict_mono f m l 0, ?_⟩
  cases m with
  | none => rfl
  | some v => rfl

/-! ## C4 -/

/-- With no REJECTED row the short-circuit `find` comes back empty. -/
theorem find?_rejected_none (l : List ExpenseApproval)
    (h : ∀ a ∈ l, a.status ≠ Status.REJECTED) :
    l.find? (fun a => a.status == Status.REJECTED) = none :=
  List.find?_eq_none.mpr (fun a ha => by simp [h a ha])

/-- C4 counterexample: two steps share the role label MANAGER; the second
is APPROVED but the *first* is PENDING.  The SPECIFIC-role rule checks only
the first row `find` returns, so the verdict is null — not APPROVED as the
claim states for "any step with that role label". -/
theorem C4_counterexample :
    (∃ a ∈ [mkRow 1 0 (some "MANAGER") Status.PENDING,
            mkRow 2 1 (some "MANAGER") Status.APPROVED],
       a.approverRole = some "MANAGER" ∧ a.status = Status.APPROVED)
    ∧ (∀ a ∈ [mkRow 1 0 (some "MANAGER") Status.PENDING,
              mkRow 2 1 (some "MANAGER") Status.APPROVED],
        a.status ≠ Status.REJECTED)
    ∧ (evaluateApprovalRules
        [mkRow 1 0 (some "MANAGER") Status.PENDING,
         mkRow 2 1 (some "MANAGER") Status.APPROVED]
        [roleRule "MANAGER"]).finalDecision = none := by
  refine ⟨?_, ?_, ?_⟩
  · decide
  · decide
  · decide

/-- C4 amended: under a Specific rule naming a role (stored first, so no
earlier rule can match), if the *first-listed* step whose role label equals
the rule's role has status APPROVED (and no step is REJECTED), the verdict
is APPROVED; a later APPROVED step with the same role label is not
consulted. -/
theorem C4_specific_role_first_match
    (approvals : List ExpenseApproval) (rest : List ApprovalRule) (role : String)
    (st : ExpenseApproval)
    (hnr : ∀ a ∈ approvals, a.status ≠ Status.REJECTED)
    (hfind : approvals.find? (fun a => a.approverRole == some role) = some st)
    (hst : st.status = Status.APPROVED) :
    (evaluateApprovalRules approvals (roleRule role :: rest)).finalDecision
      = some Status.APPROVED := by
  simp only [evaluateApprovalRules, find?_rejected_none approvals hnr]
  simp only [evalRulesLoop, roleRule, hfind, hst, if_true]

/-- C4 witness: the first CFO-labelled step is APPROVED — verdict APPROVED
even though another step is still PENDING. -/
theorem C4_specific_role_first_match_witness :
    (evaluateApprovalRules
      [mkRow 1 0 (some "CFO") Status.APPROVED, mkRow 2 1 none Status.PENDING]
      [roleRule "CFO"]).finalDecision = some Status.APPROVED :=
  C4_specific_role_first_match
    [mkRow 1 0 (some "CFO") Status.APPROVED, mkRow 2 1 none Status.PENDING]
    [] "CFO" (mkRow 1 0 (some "CFO") Status.APPROVED) (by decide) (by decide) rfl

/-! ## C5 -/

/-- With no REJECTED row, every row is APPROVED or PENDING, so the two
filters partition the list. -/
theorem filter_status_partition (l : List ExpenseApproval)
    (h : ∀ a ∈ l, a.status ≠ Status.REJECTED) :
    (l.filter (fun a => a.status == Status.APPROVED)).length
      + (l.filter (fun a => a.status == Status.PENDING)).length = l.length := by
  induction l with
  | nil => rfl
  | cons a rest ih =>
      have ha := h a (List.mem_cons_self a rest)
      have hrest := ih (fun x hx => h x (List.mem_cons_of_mem a hx))
      cases hstat : a.status with
      | PENDING => simp only [List.filter_cons, hstat]; simp; omega
      | APPROVED => simp only [List.filter_cons, hstat]; simp; omega
      | REJECTED => exact absurd hstat ha

/-- For a threshold at most 1 the required count never exceeds the step
count. -/
theorem ceil_mul_le_total (n : ℕ) (t : ℚ) (ht1 : t ≤ 1) :
    ⌈(n : ℚ) * t⌉ ≤ (n : ℤ) := by
  rw [Int.ceil_le]
  push_cast
  exact mul_le_of_le_one_right (by positivity) ht1

/-- C5: with a single Percentage rule of threshold `t` (0 < t ≤ 1) and no
REJECTED step, the verdict is APPROVED exactly when the APPROVED count
reaches `⌈total × t⌉` — the required count always rounds up — and
otherwise the verdict is null. -/
theorem C5_percentage_rounds_up
    (approvals : List ExpenseApproval) (t : ℚ)
    (ht0 : 0 < t) (ht1 : t ≤ 1)
    (hnr : ∀ a ∈ approvals, a.status ≠ Status.REJECTED) :
    (evaluateApprovalRules approvals [percRule t]).finalDecision
      = if ((approvals.filter (fun a => a.status == Status.APPROVED)).length : ℤ)
            ≥ ⌈(approvals.length : ℚ) * t⌉
        then some Status.APPROVED else none := by
  simp only [evaluateApprovalRules, find?_rejected_none approvals hnr]
  simp only [evalRulesLoop, percRule, requiredCount_eq_ceil]
  by_cases hge : ((approvals.filter (fun a => a.status == Status.APPROVED)).length : ℤ)
      ≥ ⌈(approvals.length : ℚ) * t⌉
  · rw [if_pos hge, if_pos hge]
  · rw [if_neg hge, if_neg hge]
    have hnotall : ¬ ((approvals.filter (fun a => a.status == Status.PENDING)).length = 0
        ∧ (approvals.filter (fun a => a.status == Status.APPROVED)).length > 0) := by
      rintro ⟨hp, _⟩
      apply hge
      have hpart := filter_status_partition approvals hnr
      rw [hp] at hpart
      have : (approvals.filter (fun a => a.status == Status.APPROVED)).length
          = approvals.length := by omega
      rw [this]
      exact ceil_mul_le_total approvals.length t ht1
    rw [if_neg hnotall]

/-- C5 witness: threshold 1/2 over 3 steps requires 2 approvals — 2
approved / 1 pending is APPROVED, 1 approved / 2 pending is null. -/
theorem C5_percentage_rounds_up_witness :
    (evaluateApprovalRules
      [mkRow 1 0 none Status.APPROVED, mkRow 2 1 none Status.APPROVED,
       mkRow 3 2 none Status.PENDING] [percRule (mkRat 1 2)]).finalDecision
      = some Status.APPROVED
    ∧ (evaluateApprovalRules
      [mkRow 1 0 none Status.APPROVED, mkRow 2 1 none Status.PENDING,
       mkRow 3 2 none Status.PENDING] [percRule (mkRat 1 2)]).finalDecision
      = none := by
  constructor
  · rw [C5_percentage_rounds_up _ (mkRat 1 2) (by decide) (by decide) (by decide)]
    rw [← requiredCount_eq_ceil]
    decide
  · rw [C5_percentage_rounds_up _ (mkRat 1 2) (by decide) (by decide) (by decide)]
    rw [← requiredCount_eq_ceil]
    decide

/-! ## C6 -/

/-- The condition under which one rule fires in the loop of
`evaluateApprovalRules` (the guard of each early `return`), as a Boolean on
the step set. -/
def ruleMatches (approvals : List ExpenseApproval) (rule : ApprovalRule) : Bool :=
  let approvedApprovals := approvals.filter (fun a => a.status == Status.APPROVED)
  let totalApprovals := approvals.length
  match rule.ruleType with
  | RuleType.PERCENTAGE =>
    (approvedApprovals.length : ℤ) ≥ requiredCount totalApprovals rule.threshold
  | RuleType.SPECIFIC =>
    match rule.specificApproverId with
    | some sid =>
      match approvals.find? (fun a => a.approverId == sid) with
      | some specificApproval => specificApproval.status == Status.APPROVED
      | none => false
    | none =>
      match rule.specificRole with
      | some role =>
        match approvals.find? (fun a => a.approverRole == some role) with
        | some roleApproval => roleApproval.status == Status.APPROVED
        | none => false
      | none => false
  | RuleType.HYBRID =>
    let config := rule.config.getD { percentageThreshold := none, specificRole := none }
    let percentageThreshold := jsNumOr config.percentageThreshold (mkRat 1 2)
    ((approvedApprovals.length : ℤ) ≥ requiredCount totalApprovals percentageThreshold)
    || (match config.specificRole with
        | some role =>
          match approvals.find? (fun a => a.approverRole == some role) with
          | some roleApproval => roleApproval.status == Status.APPROVED
          | none => false
        | none => false)

/-- If no rule's firing condition holds, the loop falls through. -/
theorem evalRulesLoop_none_of_no_match (approvals : List ExpenseApproval) :
    ∀ rules : List ApprovalRule, (∀ r ∈ rules, ruleMatches approvals r = false) →
      evalRulesLoop approvals (approvals.filter (fun a => a.status == Status.APPROVED))
        approvals.length rules = none := by
  intro rules
  induction rules with
  | nil => intro _; rfl
  | cons rule rest ih =>
      intro h
      have hr := h rule (List.mem_cons_self rule rest)
      have hrest := ih (fun x hx => h x (List.mem_cons_of_mem rule hx))
      cases hty : rule.ruleType with
      | PERCENTAGE =>
          simp only [ruleMatches, hty, decide_eq_false_iff_not] at hr
          simp only [evalRulesLoop, hty]
          rw [if_neg hr]
          exact hrest
      | SPECIFIC =>
          simp only [ruleMatches, hty] at hr
          simp only [evalRulesLoop, hty]
          cases hsa : rule.specificApproverId with
          | some sid =>
              simp only [hsa] at hr
              dsimp only
              cases hfind : approvals.find? (fun a => a.approverId == sid) with
              | some sp =>
                  simp only [hfind, beq_eq_false_iff_ne, ne_eq] at hr
                  dsimp only
                  rw [if_neg hr]
                  exact hrest
              | none => dsimp only; exact hrest
          | none =>
              simp only [hsa] at hr
              dsimp only
              cases hsr : rule.specificRole with
              | some role =>
                  simp only [hsr] at hr
                  dsimp only
                  cases hfind : approvals.find? (fun a => a.approverRole == some role) with
                  | some sp =>
                      simp only [hfind, beq_eq_false_iff_ne, ne_eq] at hr
                      dsimp only
                      rw [if_neg hr]
                      exact hrest
                  | none => dsimp only; exact hrest
              | none => dsimp only; exact hrest
      | HYBRID =>
          simp only [ruleMatches, hty] at hr
          simp only [evalRulesLoop, hty]
          rw [if_neg (by rw [hr]; exact Bool.false_ne_true)]
          exact hrest

/-- C6: with no REJECTED step and no matching rule, the verdict is APPROVED
exactly when zero steps are PENDING and at least one is APPROVED; in every
other such case the verdict is null and the result reports the remaining
pending count. -/
theorem C6_default_policy
    (approvals : List ExpenseApproval) (rules : List ApprovalRule)
    (hnr : ∀ a ∈ approvals, a.status ≠ Status.REJECTED)
    (hnm : ∀ r ∈ rules, ruleMatches approvals r = false) :
    ((evaluateApprovalRules approvals rules).finalDecision = some Status.APPROVED
      ↔ (approvals.filter (fun a => a.status == Status.PENDING)).length = 0
        ∧ 0 < (approvals.filter (fun a => a.status == Status.APPROVED)).length)
    ∧ (¬ ((approvals.filter (fun a => a.status == Status.PENDING)).length = 0
          ∧ 0 < (approvals.filter (fun a => a.status == Status.APPROVED)).length)
      → (evaluateApprovalRules approvals rules).finalDecision = none
        ∧ (evaluateApprovalRules approvals rules).pendingApprovals
          = some (approvals.filter (fun a => a.status == Status.PENDING)).length) := by
  have hloop := evalRulesLoop_none_of_no_match approvals rules hnm
  simp only [evaluateApprovalRules, find?_rejected_none approvals hnr, hloop]
  by_cases hc : (approvals.filter (fun a => a.status == Status.PENDING)).length = 0
      ∧ 0 < (approvals.filter (fun a => a.status == Status.APPROVED)).length
  · rw [if_pos hc]
    exact ⟨⟨fun _ => hc, fun _ => rfl⟩, fun hn => absurd hc hn⟩
  · rw [if_neg hc]
    refine ⟨⟨fun habs => absurd habs (by simp), fun hok => absurd hok hc⟩, fun _ => ⟨rfl, rfl⟩⟩

/-- C6 witness: one APPROVED step and an empty rule list — APPROVED; one
APPROVED and one PENDING step — null verdict reporting 1 pending. -/
theorem C6_default_policy_witness :
    (evaluateApprovalRules [mkRow 1 0 none Status.APPROVED] []).finalDecision
      = some Status.APPROVED
    ∧ (evaluateApprovalRules
        [mkRow 1 0 none Status.APPROVED, mkRow 2 1 none Status.PENDING] []).finalDecision = none := by
  constructor
  · exact (C6_default_policy [mkRow 1 0 none Status.APPROVED] []
      (by decide) (by simp)).1.mpr (by decide)
  · exact ((C6_default_policy [mkRow 1 0 none Status.APPROVED, mkRow 2 1 none Status.PENDING] []
      (by decide) (by simp)).2 (by decide)).1

/-! ## C7 -/

/-- C7: when the acting approver has no PENDING step on the expense (step
already decided, nonexistent, or someone else's), `processApproval` throws
`'No pending approval found for this user'` and the state — every step row
and the expense status — is unchanged. -/
theorem C7_no_pending_is_error_without_state_change
    (s : WorkflowState) (approverId : Nat) (decision : Status)
    (comment : Option String) (rules : List ApprovalRule)
    (h : ∀ a ∈ s.steps, ¬ (a.approverId = approverId ∧ a.status = Status.PENDING)) :
    processApproval s approverId decision comment rules
      = (s, Except.error "No pending approval found for this user") := by
  have hfilter : (s.steps.filter (fun a =>
      a.approverId == approverId && a.status == Status.PENDING)) = [] := by
    rw [List.filter_eq_nil_iff]
    intro a ha
    have := h a ha
    simp only [Bool.and_eq_true, beq_iff_eq]
    tauto
  have hmap : s.steps.map (fun a =>
      if a.approverId = approverId ∧ a.status = Status.PENDING then
        { a with status := decision, comment := comment } else a) = s.steps := by
    rw [List.map_congr_left (g := fun a => a), List.map_id']
    intro a ha
    rw [if_neg (h a ha)]
  unfold processApproval updateManyPending
  simp only [hfilter, hmap, List.length_nil, if_pos]

/-- C7 witness: one APPROVED step belonging to approver 1; approver 1
re-submits (step already decided) — contract error, state unchanged.  Also
the hypothesis is satisfiable for an approver with no step at all. -/
theorem C7_no_pending_is_error_without_state_change_witness :
    processApproval
      { steps := [mkRow 1 0 none Status.APPROVED], expenseStatus := Status.PENDING }
      1 Status.APPROVED none []
      = ({ steps := [mkRow 1 0 none Status.APPROVED], expenseStatus := Status.PENDING },
         Except.error "No pending approval found for this user") :=
  C7_no_pending_is_error_without_state_change
    { steps := [mkRow 1 0 none Status.APPROVED], expenseStatus := Status.PENDING }
    1 Status.APPROVED none [] (by decide)

/-! ## C8 -/

/-- In every outcome of `processApproval`, the step rows of the resulting
state are exactly the rows written by the `updateMany`. -/
theorem processApproval_steps (s : WorkflowState) (approverId : Nat)
    (decision : Status) (comment : Option String) (rules : List ApprovalRule) :
    (processApproval s approverId decision comment rules).1.steps
      = (updateManyPending s.steps approverId decision comment).1 := by
  unfold processApproval
  dsimp only
  split
  · rfl
  · split <;> rfl

/-- C8 counterexample: approver 7 holds *two* PENDING steps on the same
expense; a single APPROVED submission flips both of them (the `updateMany`
matches every pending row of that approver), so the number of steps whose
status changed is 2, not exactly 1. -/
theorem C8_counterexample :
    (((processApproval
        { steps := [mkRow 7 0 none Status.PENDING, mkRow 7 1 none Status.PENDING],
          expenseStatus := Status.PENDING } 7 Status.APPROVED none []).1.steps.zip
        [mkRow 7 0 none Status.PENDING, mkRow 7 1 none Status.PENDING]).filter
        (fun p => p.1.status != p.2.status)).length = 2
    ∧ (2 : Nat) ≠ 1 := by
  constructor
  · decide
  · decide

/-- C8 amended: a decision submission rewrites *every* PENDING step of the
acting approver on the expense — setting each one's status to the decision
and its comment to the submitted comment — while every step that is not a
PENDING step of that approver is unchanged; a successful (non-error)
submission requires at least one such pending step. -/
theorem C8_updates_every_matching_pending_step
    (s : WorkflowState) (approverId : Nat) (decision : Status)
    (comment : Option String) (rules : List ApprovalRule)
    (i : Nat) (a : ExpenseApproval) (hget : s.steps.get? i = some a) :
    ((a.approverId = approverId ∧ a.status = Status.PENDING) →
      (processApproval s approverId decision comment rules).1.steps.get? i
        = some { a with status := decision, comment := comment })
    ∧ (¬ (a.approverId = approverId ∧ a.status = Status.PENDING) →
      (processApproval s approverId decision comment rules).1.steps.get? i = some a)
    ∧ (∀ r : EvalResult, (processApproval s approverId decision comment rules).2 = Except.ok r →
      ∃ b ∈ s.steps, b.approverId = approverId ∧ b.status = Status.PENDING) := by
  have hsteps := processApproval_steps s approverId decision comment rules
  have hget' : (processApproval s approverId decision comment rules).1.steps.get? i
      = Option.map (fun a =>
          if a.approverId = approverId ∧ a.status = Status.PENDING then
            { a with status := decision, comment := comment } else a) (s.steps.get? i) := by
    rw [hsteps]
    exact List.get?_map _ _ _
  refine ⟨?_, ?_, ?_⟩
  · intro hc
    rw [hget', hget]
    dsimp only [Option.map]
    rw [if_pos hc]
  · intro hc
    rw [hget', hget]
    dsimp only [Option.map]
    rw [if_neg hc]
  · intro r hok
    by_cases hzero : (s.steps.filter (fun a =>
        a.approverId == approverId && a.status == Status.PENDING)).length = 0
    · exfalso
      revert hok
      unfold processApproval updateManyPending
      rw [if_pos hzero]
      simp
    · have hne : (s.steps.filter (fun a =>
          a.approverId == approverId && a.status == Status.PENDING)) ≠ [] := by
        intro hnil
        exact hzero (by rw [hnil]; rfl)
      obtain ⟨b, hb⟩ := List.exists_mem_of_ne_nil _ hne
      have hb' := List.mem_filter.mp hb
      refine ⟨b, hb'.1, ?_⟩
      have := hb'.2
      simp only [Bool.and_eq_true, beq_iff_eq] at this
      exact this

/-- C8 witness: approver 7's pending step 0 is rewritten, approver 8's
pending step 1 is untouched, and the successful call implies a pending
step existed. -/
theorem C8_updates_every_matching_pending_step_witness :
    ((mkRow 7 0 none Status.PENDING).approverId = 7
      ∧ (mkRow 7 0 none Status.PENDING).status = Status.PENDING)
    ∧ (processApproval
        { steps := [mkRow 7 0 none Status.PENDING, mkRow 8 1 none Status.PENDING],
          expenseStatus := Status.PENDING } 7 Status.APPROVED none []).1.steps.get? 0
      = some { mkRow 7 0 none Status.PENDING with
               status := Status.APPROVED, comment := none }
    ∧ (processApproval
        { steps := [mkRow 7 0 none Status.PENDING, mkRow 8 1 none Status.PENDING],
          expenseStatus := Status.PENDING } 7 Status.APPROVED none []).1.steps.get? 1
      = some (mkRow 8 1 none Status.PENDING) := by
  refine ⟨by decide, ?_, ?_⟩
  · exact (C8_updates_every_matching_pending_step
      { steps := [mkRow 7 0 none Status.PENDING, mkRow 8 1 none Status.PENDING],
        expenseStatus := Status.PENDING } 7 Status.APPROVED none [] 0
      (mkRow 7 0 none Status.PENDING) rfl).1 (by decide)
  · exact (C8_updates_every_matching_pending_step
      { steps := [mkRow 7 0 none Status.PENDING, mkRow 8 1 none Status.PENDING],
        expenseStatus := Status.PENDING } 7 Status.APPROVED none [] 1
      (mkRow 8 1 none Status.PENDING) rfl).2.1 (by decide)

/-! ## C2 -/

/-- C2 counterexample: two of three steps APPROVED under a 50% percentage
rule — the evaluator's non-null verdict APPROVED set the expense APPROVED
while step 3 is still PENDING.  Approver 3 then submits REJECTED on that
still-PENDING step: `processApproval` succeeds and flips the expense
status to REJECTED, so the workflow is not terminal after APPROVED. -/
theorem C2_counterexample :
    (evaluateApprovalRules
      [mkRow 1 0 none Status.APPROVED, mkRow 2 1 none Status.APPROVED,
       mkRow 3 2 none Status.PENDING] [percRule (mkRat 1 2)]).finalDecision
      = some Status.APPROVED
    ∧ (processApproval
        { steps := [mkRow 1 0 none Status.APPROVED, mkRow 2 1 none Status.APPROVED,
                    mkRow 3 2 none Status.PENDING],
          expenseStatus := Status.APPROVED } 3 Status.REJECTED none
        [percRule (mkRat 1 2)]).1.expenseStatus = Status.REJECTED
    ∧ Status.REJECTED ≠ Status.APPROVED := by
  refine ⟨by decide, by decide, by decide⟩

/-- C2 amended: only REJECTED is terminal.  Once some step is REJECTED
(which is exactly how the evaluator ever produces the REJECTED verdict that
sets the expense REJECTED), every subsequent successful `processApproval`
re-derives the REJECTED verdict and leaves the expense status REJECTED.
An expense set APPROVED by a non-null verdict, however, can still change:
a REJECTED submission on a remaining PENDING step flips it to REJECTED, as
the counterexample shows. -/
theorem C2_rejected_is_terminal
    (s : WorkflowState) (approverId : Nat) (decision : Status)
    (comment : Option String) (rules : List ApprovalRule)
    (a : ExpenseApproval) (ha : a ∈ s.steps) (hrej : a.status = Status.REJECTED)
    (r : EvalResult)
    (hok : (processApproval s approverId decision comment rules).2 = Except.ok r) :
    (processApproval s approverId decision comment rules).1.expenseStatus
      = Status.REJECTED := by
  have hfa : (if a.approverId = approverId ∧ a.status = Status.PENDING then
      { a with status := decision, comment := comment } else a) = a := by
    rw [if_neg]
    rintro ⟨_, hp⟩
    rw [hrej] at hp
    cases hp
  have hmem : a ∈ (updateManyPending s.steps approverId decision comment).1 := by
    show a ∈ s.steps.map _
    exact List.mem_map.mpr ⟨a, ha, hfa⟩
  have heval := evaluate_rejected_mem
    (updateManyPending s.steps approverId decision comment).1 rules a hmem hrej
  by_cases hzero : (updateManyPending s.steps approverId decision comment).2 = 0
  · exfalso
    revert hok
    unfold processApproval
    dsimp only
    rw [if_pos hzero]
    simp
  · unfold processApproval
    dsimp only
    rw [if_neg hzero]
    simp only [heval]

/-- C2 witness: a state whose first step is already REJECTED (and whose
expense status is REJECTED from that verdict); approver 2 approves their
still-PENDING step — the call succeeds and the expense stays REJECTED. -/
theorem C2_rejected_is_terminal_witness :
    (processApproval
      { steps := [mkRow 1 0 none Status.REJECTED, mkRow 2 1 none Status.PENDING],
        expenseStatus := Status.REJECTED } 2 Status.APPROVED none []).1.expenseStatus
      = Status.REJECTED :=
  C2_rejected_is_terminal
    { steps := [mkRow 1 0 none Status.REJECTED, mkRow 2 1 none Status.PENDING],
      expenseStatus := Status.REJECTED } 2 Status.APPROVED none []
    (mkRow 1 0 none Status.REJECTED) (by decide) rfl
    { finalDecision := some Status.REJECTED, reason := Reason.rejectedByApprover,
      rejectedBy := none, comment := none, approvedBy := none,
      pendingApprovals := none, totalApprovals := none } rfl

/-! ## C10 -/

/-- C10: a HYBRID rule whose config lacks `percentageThreshold` (or whose
config is absent entirely) is evaluated with the implicit default threshold
0.5: whenever the APPROVED count reaches `⌈total × 1/2⌉` the verdict is
APPROVED, with or without a configured role. -/
theorem C10_hybrid_default_half_threshold
    (approvals : List ExpenseApproval) (c : Option HybridConfig)
    (rest : List ApprovalRule)
    (hnr : ∀ a ∈ approvals, a.status ≠ Status.REJECTED)
    (hc : (c.getD { percentageThreshold := none, specificRole := none }).percentageThreshold
      = none)
    (hcount : ((approvals.filter (fun a => a.status == Status.APPROVED)).length : ℤ)
        ≥ ⌈(approvals.length : ℚ) * (1 / 2)⌉) :
    (evaluateApprovalRules approvals (hybridRule c :: rest)).finalDecision
      = some Status.APPROVED := by
  have hmk : (mkRat 1 2 : ℚ) = 1 / 2 := by
    rw [Rat.mkRat_eq_div]
    norm_num
  have hreq : requiredCount approvals.length (mkRat 1 2)
      ≤ ((approvals.filter (fun a => a.status == Status.APPROVED)).length : ℤ) := by
    rw [requiredCount_eq_ceil, hmk]
    exact hcount
  simp only [evaluateApprovalRules, find?_rejected_none approvals hnr]
  simp only [evalRulesLoop, hybridRule, hc, jsNumOr]
  rw [if_pos]
  rw [Bool.or_eq_true]
  left
  exact decide_eq_true hreq

/-- C10 witness: config absent entirely, two steps, one APPROVED — the
default 50% threshold over 2 steps requires 1 approval, so APPROVED. -/
theorem C10_hybrid_default_half_threshold_witness :
    (evaluateApprovalRules
      [mkRow 1 0 none Status.APPROVED, mkRow 2 1 none Status.PENDING]
      [hybridRule none]).finalDecision = some Status.APPROVED := by
  apply C10_hybrid_default_half_threshold
    [mkRow 1 0 none Status.APPROVED, mkRow 2 1 none Status.PENDING] none []
    (by decide) rfl
  have h1 : (List.filter (fun a => a.status == Status.APPROVED)
      [mkRow 1 0 none Status.APPROVED, mkRow 2 1 none Status.PENDING]).length = 1 := rfl
  have h2 : ([mkRow 1 0 none Status.APPROVED,
      mkRow 2 1 none Status.PENDING] : List ExpenseApproval).length = 2 := rfl
  rw [h1, h2, show ((2 : ℕ) : ℚ) * (1 / 2) = 1 by norm_num, Int.ceil_one]
  exact le_refl 1
